import Mathlib

/-!
Verification of the typed undirected graph engine of `spatial_graph`.

The Python-facing wrapper (`wrapper_template.pyx`, class `UndirectedGraph`)
is translated below in the `UndirectedGraph` namespace, method by method.
The underlying C++ adjacency store (`graph_lite.h`) is not part of the
sources at hand; only its extern declarations appear in the wrapper
(`UndirectedGraphTmpl`, instantiated with `EdgeDirection::UNDIRECTED`,
`MultiEdge::DISALLOWED`, `SelfLoop::DISALLOWED`, `Map::UNORDERED_MAP`,
`Container::VEC`).  It is modelled from the spec in the `graph_lite`
namespace.

Node keys are modelled as `Nat` (the spec fixes one comparable, hashable,
fixed-width key type per schema; its natural order is all that matters
here).  Attribute records are modelled by arbitrary type parameters
`ND` (node data) and `ED` (edge data): the code generator emits one
concrete C++ aggregate per schema, and every generated per-field getter
and setter is a projection out of / an update into that aggregate, which
the theorems quantify over as functions `ND → V` and `V → ND → ND`.
-/

namespace SpatialGraph

/-- Node keys: one fixed comparable, hashable key type per schema. -/
abbrev Key := Nat

/-- Modelled from the spec: the adjacency-list store of `graph_lite.h`
(not under the sources at hand).  `nodes` is the node store in its
internal iteration order (the order in which `begin()`/`end()` visit
the unordered map, modelled as insertion order), each node carrying its
attribute record.  `edges` is the set of stored edges, each keyed by
the canonical ordered pair `(min u v, max u v)` and carrying its
attribute record; the list order is edge insertion order, and since the
per-node neighbor containers are vectors (`Container::VEC`) that are
appended to on insertion, the neighbor enumeration of a node replays
its incident edges in exactly this insertion order. -/
structure Graph (ND ED : Type) where
  nodes : List (Key × ND)
  edges : List ((Key × Key) × ED)
deriving DecidableEq

/-- Canonical unordered-pair representative: endpoints sorted ascending. -/
def canon (u v : Key) : Key × Key := (min u v, max u v)

namespace graph_lite

variable {ND ED : Type}

/-- Modelled from the spec: node-existence query of the store. -/
def hasNode (g : Graph ND ED) (k : Key) : Bool :=
  g.nodes.any (fun n => n.1 == k)

/-- The stored canonical edge pairs, in insertion order. -/
def edgeKeys (g : Graph ND ED) : List (Key × Key) :=
  g.edges.map (fun e => e.1)

/-- Modelled from the spec: edge-existence query, symmetric in `u`, `v`
because lookup is by the canonical pair. -/
def hasEdge (g : Graph ND ED) (u v : Key) : Bool :=
  g.edges.any (fun e => e.1 == canon u v)

/-- Modelled from the spec: `node_prop` — the attribute record of a node,
`none` when the key is absent (the C++ call fails on an absent key). -/
def node_prop (g : Graph ND ED) (k : Key) : Option ND :=
  (g.nodes.find? (fun n => n.1 == k)).map (fun n => n.2)

/-- Modelled from the spec: `edge_prop` — the attribute record of the edge
`{u, v}`; for undirected graphs both endpoint orders address the same
record, hence lookup by the canonical pair. -/
def edge_prop (g : Graph ND ED) (u v : Key) : Option ED :=
  (g.edges.find? (fun e => e.1 == canon u v)).map (fun e => e.2)

/-- Modelled from the spec: neighbor enumeration of `u`, replaying the
incident edges in insertion order (`Container::VEC` append order) and
projecting out the other endpoint. -/
def neighbors (g : Graph ND ED) (u : Key) : List Key :=
  g.edges.filterMap (fun e =>
    if e.1.1 = u then some e.1.2
    else if e.1.2 = u then some e.1.1
    else none)

/-- Modelled from the spec: `add_node_with_prop` inserts a fresh node and
reports via its `int` result how many nodes were inserted (`0` when the
key already exists, leaving the store unchanged). -/
def add_node_with_prop (g : Graph ND ED) (k : Key) (p : ND) : Graph ND ED × Nat :=
  if hasNode g k then (g, 0)
  else ({ g with nodes := g.nodes ++ [(k, p)] }, 1)

/-- Modelled from the spec: `add_edge_with_prop` inserts the edge `{u, v}`
and reports via its `int` result how many edges were inserted.  Self
loops (`SelfLoop::DISALLOWED`), absent endpoints, and already-present
edges (`MultiEdge::DISALLOWED`) are rejected with result `0`, leaving
the store unchanged. -/
def add_edge_with_prop (g : Graph ND ED) (u v : Key) (p : ED) : Graph ND ED × Nat :=
  if u = v then (g, 0)
  else if hasNode g u && hasNode g v then
    if hasEdge g u v then (g, 0)
    else ({ g with edges := g.edges ++ [(canon u v, p)] }, 1)
  else (g, 0)

/-- Modelled from the spec: `remove_nodes` removes the node and every edge
incident to it, reporting how many nodes were removed (`0` when the key
is absent, leaving the store unchanged). -/
def remove_nodes (g : Graph ND ED) (k : Key) : Graph ND ED × Nat :=
  if hasNode g k then
    ({ nodes := g.nodes.filter (fun n => n.1 != k),
       edges := g.edges.filter (fun e => e.1.1 != k && e.1.2 != k) }, 1)
  else (g, 0)

/-- Modelled from the spec: `count_neighbors` — the degree of a node. -/
def count_neighbors (g : Graph ND ED) (k : Key) : Nat :=
  (neighbors g k).length

/-- Modelled from the spec: `size` — the number of nodes. -/
def size (g : Graph ND ED) : Nat := g.nodes.length

/-- Modelled from the spec: `num_edges` — the number of stored edges, each
undirected edge counted once. -/
def num_edges (g : Graph ND ED) : Nat := g.edges.length

end graph_lite

/-- The Python-level error surfaced by a wrapper call: `assertionFailed`
for a failing `assert`, `indexOutOfRange` for an out-of-bounds typed
memoryview access, `lookupFailed` for an underlying lookup of an absent
node or edge record. -/
inductive PyErr where
  | assertionFailed
  | indexOutOfRange
  | lookupFailed
deriving DecidableEq

namespace UndirectedGraph

open graph_lite

variable {ND ED V : Type}

/-- `UndirectedGraph.add_node` (wrapper_template.pyx:160): builds the
`NodeData` record from the per-field arguments and calls
`add_node_with_prop`; the `int` result is discarded and no error is
raised, so the surfaced error is always `none`. -/
def add_node (g : Graph ND ED) (k : Key) (p : ND) : Graph ND ED × Option PyErr :=
  ((add_node_with_prop g k p).1, none)

/-- `UndirectedGraph.add_edge` (wrapper_template.pyx:160, edge branch):
reads `edge[0]`, `edge[1]`, builds the `EdgeData` record and calls
`add_edge_with_prop`; the `int` result is discarded and no error is
raised, so the surfaced error is always `none`. -/
def add_edge (g : Graph ND ED) (u v : Key) (p : ED) : Graph ND ED × Option PyErr :=
  ((add_edge_with_prop g u v p).1, none)

/-- The loop body of `UndirectedGraph.add_nodes` (wrapper_template.pyx:200):
for each row index `i` it calls `add_node_with_prop(nodes[i], NodeData(...))`,
discarding the result.  A row is the key paired with the attribute record
assembled from the per-field columns at index `i`. -/
def add_nodes_loop : Graph ND ED → List (Key × ND) → Graph ND ED
  | g, [] => g
  | g, r :: rest => add_nodes_loop (add_node_with_prop g r.1 r.2).1 rest

/-- `UndirectedGraph.add_nodes`: the loop, surfacing no error. -/
def add_nodes (g : Graph ND ED) (rows : List (Key × ND)) : Graph ND ED × Option PyErr :=
  (add_nodes_loop g rows, none)

/-- The loop body of `UndirectedGraph.add_edges` (wrapper_template.pyx:200,
edge branch): for each row index `i` it calls
`add_edge_with_prop(edges[i,0], edges[i,1], EdgeData(...))`, discarding
the result. -/
def add_edges_loop : Graph ND ED → List ((Key × Key) × ED) → Graph ND ED
  | g, [] => g
  | g, r :: rest => add_edges_loop (add_edge_with_prop g r.1.1 r.1.2 r.2).1 rest

/-- `UndirectedGraph.add_edges`: the loop, surfacing no error. -/
def add_edges (g : Graph ND ED) (rows : List ((Key × Key) × ED)) :
    Graph ND ED × Option PyErr :=
  (add_edges_loop g rows, none)

/-- `UndirectedGraph.edges` with no node filter (wrapper_template.pyx:263):
iterate the node store in order; for each node `u` enumerate its
neighbors `v` and yield the pair `(u, v)` exactly when `u < v`. -/
def edges (g : Graph ND ED) : List (Key × Key) :=
  g.nodes.flatMap (fun n =>
    ((neighbors g n.1).filter (fun v => decide (n.1 < v))).map (fun v => (n.1, v)))

/-- `UndirectedGraph.edges_by_nodes` (wrapper_template.pyx:294): first
sizes the output via `_num_edges`, which calls `count_neighbors` on each
requested key and fails on an absent key; then for each `u` in the given
key array (in order, duplicates included) enumerates the neighbors `v`
of `u` and emits the row `(u, v)` exactly when `u < v`; the allocated
array is trimmed to the emitted rows. -/
def edges_by_nodes (g : Graph ND ED) (keys : List Key) : Option (List (Key × Key)) :=
  if keys.all (fun k => hasNode g k) then
    some (keys.flatMap (fun u =>
      ((neighbors g u).filter (fun v => decide (u < v))).map (fun v => (u, v))))
  else none

/-- `UndirectedGraph.get_node_data_<name>` (wrapper_template.pyx:338): the
per-field getter, reading field `f` of `node_prop(node)`. -/
def get_node_data (f : ND → V) (g : Graph ND ED) (k : Key) : Option V :=
  (node_prop g k).map f

/-- `UndirectedGraph.get_edge_data_<name>` (wrapper_template.pyx:416): the
per-field getter, reading field `f` of `edge_prop(u, v)`. -/
def get_edge_data (f : ED → V) (g : Graph ND ED) (u v : Key) : Option V :=
  (edge_prop g u v).map f

/-- In-place update of one node's attribute record (the effect of
`node_prop(k).<name> = value` on the store). -/
def write_node (g : Graph ND ED) (k : Key) (f : ND → ND) : Graph ND ED :=
  { g with nodes := g.nodes.map (fun n => if n.1 = k then (n.1, f n.2) else n) }

/-- In-place update of one edge's attribute record (the effect of
`edge_prop(u, v).<name> = value` on the store). -/
def write_edge (g : Graph ND ED) (u v : Key) (f : ED → ED) : Graph ND ED :=
  { g with edges := g.edges.map (fun e => if e.1 = canon u v then (e.1, f e.2) else e) }

/-- `UndirectedGraph.set_node_data_<name>` (wrapper_template.pyx:387):
writes the field of one node's record via the field updater `w`. -/
def set_node_data (w : V → ND → ND) (g : Graph ND ED) (k : Key) (v : V) :
    Graph ND ED × Option PyErr :=
  if hasNode g k then (write_node g k (w v), none) else (g, some .lookupFailed)

/-- `UndirectedGraph.set_edge_data_<name>` (wrapper_template.pyx:481):
writes the field of one edge's record via the field updater `w`. -/
def set_edge_data (w : V → ED → ED) (g : Graph ND ED) (u v : Key) (x : V) :
    Graph ND ED × Option PyErr :=
  if hasEdge g u v then (write_edge g u v (w x), none) else (g, some .lookupFailed)

/-- The explicit-keys loop of `UndirectedGraph.set_nodes_data_<name>`
(wrapper_template.pyx:409): for each `i`, `node_prop(nodes[i]).<name> =
values[i]`; an absent key fails at that point, keeping the writes made
so far. -/
def set_nodes_data_loop (w : V → ND → ND) :
    Graph ND ED → List (Key × V) → Graph ND ED × Option PyErr
  | g, [] => (g, none)
  | g, r :: rest =>
    if hasNode g r.1 then set_nodes_data_loop w (write_node g r.1 (w r.2)) rest
    else (g, some .lookupFailed)

/-- `UndirectedGraph.set_nodes_data_<name>` with an explicit key array
(wrapper_template.pyx:393): `assert len(nodes) == len(values)` first,
then the per-index write loop. -/
def set_nodes_data (w : V → ND → ND) (g : Graph ND ED) (keys : List Key)
    (vals : List V) : Graph ND ED × Option PyErr :=
  if keys.length = vals.length then set_nodes_data_loop w g (keys.zip vals)
  else (g, some .assertionFailed)

/-- The all-nodes loop of `UndirectedGraph.set_nodes_data_<name>` with
`nodes is None` (wrapper_template.pyx:404): walk the node store in
iteration order with a running index `i` into `values`; the `i`-th node
visited is assigned `values[i]`.  No length check is made: reading past
the end of `values` raises an index error at that point (earlier writes
kept), and entries of `values` beyond the node count are never read. -/
def set_nodes_data_all_loop (w : V → ND → ND) :
    List (Key × ND) → List V → List (Key × ND) × Option PyErr
  | [], _ => ([], none)
  | n :: rest, v :: vs =>
    ((n.1, w v n.2) :: (set_nodes_data_all_loop w rest vs).1,
     (set_nodes_data_all_loop w rest vs).2)
  | n :: rest, [] => (n :: rest, some .indexOutOfRange)

/-- `UndirectedGraph.set_nodes_data_<name>` with `nodes is None`. -/
def set_nodes_data_all (w : V → ND → ND) (g : Graph ND ED) (vals : List V) :
    Graph ND ED × Option PyErr :=
  ({ g with nodes := (set_nodes_data_all_loop w g.nodes vals).1 },
   (set_nodes_data_all_loop w g.nodes vals).2)

/-- The loop of `UndirectedGraph.set_edges_data_<name>`
(wrapper_template.pyx:499): for each `i` below `len(us)`,
`edge_prop(us[i], vs[i]).<name> = values[i]`; reading `values[i]` out of
bounds raises an index error at that point, an absent edge fails at that
point, and surplus `values` entries are never read. -/
def set_edges_data_loop (w : V → ED → ED) :
    Graph ND ED → List (Key × Key) → List V → Graph ND ED × Option PyErr
  | g, [], _ => (g, none)
  | g, _ :: _, [] => (g, some .indexOutOfRange)
  | g, p :: rest, x :: xs =>
    if hasEdge g p.1 p.2 then
      set_edges_data_loop w (write_edge g p.1 p.2 (w x)) rest xs
    else (g, some .lookupFailed)

/-- `UndirectedGraph.set_edges_data_<name>` (wrapper_template.pyx:487):
`assert len(us) == len(vs)` first — the values array length is never
compared against the key count — then the per-index write loop. -/
def set_edges_data (w : V → ED → ED) (g : Graph ND ED) (us vs : List Key)
    (vals : List V) : Graph ND ED × Option PyErr :=
  if us.length = vs.length then set_edges_data_loop w g (us.zip vs) vals
  else (g, some .assertionFailed)

/-- `UndirectedGraph.remove_node` (wrapper_template.pyx:505): calls
`remove_nodes`; the `int` result is discarded and no error is raised, so
the surfaced error is always `none`. -/
def remove_node (g : Graph ND ED) (k : Key) : Graph ND ED × Option PyErr :=
  ((remove_nodes g k).1, none)

/-- `UndirectedGraph.num_edges` (wrapper_template.pyx:540). -/
def num_edges (g : Graph ND ED) : Nat := graph_lite.num_edges g

/-- `UndirectedGraph.__len__` (wrapper_template.pyx:537). -/
def len (g : Graph ND ED) : Nat := graph_lite.size g

/-- `UndirectedGraph.count_neighbors` (wrapper_template.pyx:510): the
per-key degrees, failing when a requested key is absent. -/
def count_neighbors (g : Graph ND ED) (keys : List Key) : Option (List Nat) :=
  if keys.all (fun k => hasNode g k) then
    some (keys.map (fun k => graph_lite.count_neighbors g k))
  else none

end UndirectedGraph

open graph_lite UndirectedGraph

variable {ND ED V : Type}

/-- Structural well-formedness of the store: node keys are distinct, the
stored canonical edge pairs are distinct, each stored pair really is
canonical (strictly ascending, hence no self-loop), and both endpoints
of every stored edge are present nodes. -/
def WF (g : Graph ND ED) : Prop :=
  (g.nodes.map (fun n => n.1)).Nodup ∧
  (edgeKeys g).Nodup ∧
  (∀ e ∈ g.edges, e.1.1 < e.1.2) ∧
  (∀ e ∈ g.edges, hasNode g e.1.1 = true ∧ hasNode g e.1.2 = true)

instance {g : Graph ND ED} : Decidable (WF g) := by
  unfold WF
  infer_instance

theorem canon_comm (u v : Key) : canon u v = canon v u := by
  simp [canon, Nat.min_comm, Nat.max_comm]

theorem canon_of_lt {u v : Key} (h : u < v) : canon u v = (u, v) := by
  simp [canon, Nat.min_eq_left (Nat.le_of_lt h), Nat.max_eq_right (Nat.le_of_lt h)]

theorem canon_fst_lt_snd {u v : Key} (h : u ≠ v) : (canon u v).1 < (canon u v).2 := by
  rcases Nat.lt_or_ge u v with h1 | h1
  · simpa [canon_of_lt h1] using h1
  · have h2 : v < u := Nat.lt_of_le_of_ne h1 (fun hh => h hh.symm)
    rw [canon_comm]
    simpa [canon_of_lt h2] using h2

theorem hasNode_iff {g : Graph ND ED} {k : Key} :
    hasNode g k = true ↔ k ∈ g.nodes.map (fun n => n.1) := by
  simp [hasNode, List.any_eq_true, List.mem_map]

theorem hasEdge_iff {g : Graph ND ED} {u v : Key} :
    hasEdge g u v = true ↔ canon u v ∈ edgeKeys g := by
  simp [hasEdge, edgeKeys, List.any_eq_true, List.mem_map]

theorem mem_neighbors {g : Graph ND ED} {u v : Key} :
    v ∈ neighbors g u ↔ ∃ e ∈ g.edges, e.1 = (u, v) ∨ e.1 = (v, u) := by
  simp only [neighbors, List.mem_filterMap]
  constructor
  · rintro ⟨e, he, hv⟩
    by_cases h1 : e.1.1 = u
    · refine ⟨e, he, Or.inl ?_⟩
      rw [if_pos h1] at hv
      have h2 : e.1.2 = v := by simpa using hv
      exact Prod.ext h1 h2
    · by_cases h2 : e.1.2 = u
      · refine ⟨e, he, Or.inr ?_⟩
        rw [if_neg h1, if_pos h2] at hv
        have h3 : e.1.1 = v := by simpa using hv
        exact Prod.ext h3 h2
      · rw [if_neg h1, if_neg h2] at hv
        exact absurd hv (by simp)
  · rintro ⟨e, he, h | h⟩
    · refine ⟨e, he, ?_⟩
      simp [h]
    · refine ⟨e, he, ?_⟩
      by_cases huv : v = u
      · simp [h, huv]
      · simp [h, huv]

theorem not_self_mem_neighbors {g : Graph ND ED} {u : Key}
    (hc : ∀ e ∈ g.edges, e.1.1 < e.1.2) : u ∉ neighbors g u := by
  intro hmem
  obtain ⟨e, he, h⟩ := mem_neighbors.1 hmem
  have := hc e he
  rcases h with h | h <;> rw [h] at this <;> exact Nat.lt_irrefl u this

theorem mem_neighbors_wf {g : Graph ND ED} {u v : Key}
    (hc : ∀ e ∈ g.edges, e.1.1 < e.1.2) :
    v ∈ neighbors g u ↔ canon u v ∈ edgeKeys g := by
  rw [mem_neighbors]
  constructor
  · rintro ⟨e, he, h | h⟩
    · have hlt : u < v := by have := hc e he; rw [h] at this; exact this
      rw [canon_of_lt hlt, ← h]
      exact List.mem_map_of_mem _ he
    · have hlt : v < u := by have := hc e he; rw [h] at this; exact this
      rw [canon_comm, canon_of_lt hlt, ← h]
      exact List.mem_map_of_mem _ he
  · intro hmem
    obtain ⟨e, he, hk⟩ := List.mem_map.1 hmem
    have hne : u ≠ v := by
      intro huv
      have := hc e he
      rw [hk, huv] at this
      simp [canon] at this
    refine ⟨e, he, ?_⟩
    rcases Nat.lt_or_ge u v with h1 | h1
    · left
      rw [hk, canon_of_lt h1]
    · right
      have h2 : v < u := Nat.lt_of_le_of_ne h1 (fun hh => hne hh.symm)
      rw [hk, canon_comm, canon_of_lt h2]

theorem nf_eq_some {u v : Key} {e : (Key × Key) × ED} :
    (if e.1.1 = u then some e.1.2 else if e.1.2 = u then some e.1.1 else none) = some v →
    e.1 = (u, v) ∨ e.1 = (v, u) := by
  intro h
  by_cases h1 : e.1.1 = u
  · rw [if_pos h1] at h
    exact Or.inl (Prod.ext h1 (by simpa using h))
  · by_cases h2 : e.1.2 = u
    · rw [if_neg h1, if_pos h2] at h
      exact Or.inr (Prod.ext (by simpa using h) h2)
    · rw [if_neg h1, if_neg h2] at h
      exact absurd h (by simp)

theorem nbr_filterMap_nodup (u : Key) (l : List ((Key × Key) × ED))
    (hk : (l.map (fun e => e.1)).Nodup) (hc : ∀ e ∈ l, e.1.1 < e.1.2) :
    (l.filterMap (fun e =>
      if e.1.1 = u then some e.1.2
      else if e.1.2 = u then some e.1.1 else none)).Nodup := by
  induction l with
  | nil => simp
  | cons e rest ih =>
    rw [List.map_cons, List.nodup_cons] at hk
    have hce := hc e (List.mem_cons_self e rest)
    have hcr : ∀ x ∈ rest, x.1.1 < x.1.2 := fun x hx => hc x (List.mem_cons_of_mem e hx)
    cases h1 : (if e.1.1 = u then some e.1.2 else if e.1.2 = u then some e.1.1 else none) with
    | none =>
      rw [List.filterMap_cons, h1]
      exact ih hk.2 hcr
    | some v =>
      rw [List.filterMap_cons, h1, List.nodup_cons]
      refine ⟨?_, ih hk.2 hcr⟩
      intro hv
      obtain ⟨x, hx, hxv⟩ := List.mem_filterMap.1 hv
      have hxk : x.1 ∈ rest.map (fun e => e.1) := List.mem_map_of_mem _ hx
      have hcx := hcr x hx
      rcases nf_eq_some h1 with he | he <;> rcases nf_eq_some hxv with hxe | hxe
      · exact hk.1 (by rw [he, ← hxe]; exact hxk)
      · rw [he] at hce
        rw [hxe] at hcx
        exact Nat.lt_asymm hce hcx
      · rw [he] at hce
        rw [hxe] at hcx
        exact Nat.lt_asymm hce hcx
      · exact hk.1 (by rw [he, ← hxe]; exact hxk)

theorem neighbors_nodup {g : Graph ND ED} {u : Key}
    (hk : (edgeKeys g).Nodup) (hc : ∀ e ∈ g.edges, e.1.1 < e.1.2) :
    (neighbors g u).Nodup :=
  nbr_filterMap_nodup u g.edges hk hc

theorem nbr_filterMap_length (k : Key) (l : List ((Key × Key) × ED)) :
    (l.filterMap (fun e =>
      if e.1.1 = k then some e.1.2
      else if e.1.2 = k then some e.1.1 else none)).length +
    (l.filter (fun e => e.1.1 != k && e.1.2 != k)).length = l.length := by
  induction l with
  | nil => simp
  | cons e rest ih =>
    by_cases h1 : e.1.1 = k
    · simp [List.filterMap_cons, List.filter_cons, h1]
      omega
    · by_cases h2 : e.1.2 = k
      · simp [List.filterMap_cons, List.filter_cons, h1, h2]
        omega
      · simp [List.filterMap_cons, List.filter_cons, h1, h2]
        omega

theorem edges_nodup {g : Graph ND ED} (h : WF g) : (edges g).Nodup := by
  obtain ⟨hn, hk, hc, _⟩ := h
  rw [edges, List.nodup_flatMap]
  constructor
  · intro n _
    exact (((neighbors_nodup hk hc).filter _).map
      (fun a b hab => by simpa using congrArg Prod.snd hab))
  · have hp : List.Pairwise (fun a b : Key × ND => a.1 ≠ b.1) g.nodes := by
      rw [← List.pairwise_map]
      exact hn
    refine hp.imp ?_
    intro a b hab
    intro p hpa hpb
    obtain ⟨v, _, hv⟩ := List.mem_map.1 hpa
    obtain ⟨w, _, hw⟩ := List.mem_map.1 hpb
    rw [← hv] at hw
    have h2 : b.1 = a.1 := (Prod.ext_iff.1 hw).1
    exact hab h2.symm

theorem mem_edges {g : Graph ND ED} (h : WF g) {p : Key × Key} :
    p ∈ edges g ↔ p ∈ edgeKeys g := by
  obtain ⟨hn, hk, hc, hep⟩ := h
  rw [edges]
  simp only [List.mem_flatMap, List.mem_map, List.mem_filter]
  constructor
  · rintro ⟨n, hmem, v, ⟨hv, hlt⟩, hp⟩
    have hlt2 : n.1 < v := of_decide_eq_true hlt
    have := (mem_neighbors_wf hc).1 hv
    rw [canon_of_lt hlt2] at this
    rw [← hp]
    exact this
  · intro hp
    obtain ⟨e, he, hkey⟩ := List.mem_map.1 hp
    have hlt : p.1 < p.2 := by rw [← hkey]; exact hc e he
    have h1 : hasNode g p.1 = true := by
      have := (hep e he).1
      rw [hkey] at this
      exact this
    obtain ⟨n, hnmem, hn1⟩ := List.mem_map.1 (hasNode_iff.1 h1)
    refine ⟨n, hnmem, p.2, ⟨?_, by rw [hn1]; exact decide_eq_true hlt⟩, by rw [hn1]⟩
    rw [hn1]
    rw [mem_neighbors_wf hc, canon_of_lt hlt]
    exact hkey ▸ List.mem_map_of_mem _ he

theorem edges_perm {g : Graph ND ED} (h : WF g) :
    List.Perm (edges g) (edgeKeys g) :=
  (List.perm_ext_iff_of_nodup (edges_nodup h) h.2.1).2 (fun _ => mem_edges h)

theorem hasNode_eq_any_keys {g : Graph ND ED} {k : Key} :
    hasNode g k = (g.nodes.map (fun n => n.1)).any (fun a => a == k) := by
  rw [hasNode]
  induction g.nodes with
  | nil => rfl
  | cons n rest ih => simp only [List.any_cons, List.map_cons, ih]

theorem hasNode_congr_keys {g1 g2 : Graph ND ED} {k : Key}
    (h : g1.nodes.map (fun n => n.1) = g2.nodes.map (fun n => n.1)) :
    hasNode g1 k = hasNode g2 k := by
  rw [hasNode_eq_any_keys, hasNode_eq_any_keys, h]

/-- Well-formedness only depends on the node keys and the edge keys. -/
theorem wf_of_keys_eq {g1 g2 : Graph ND ED}
    (h1 : g1.nodes.map (fun n => n.1) = g2.nodes.map (fun n => n.1))
    (h2 : edgeKeys g1 = edgeKeys g2) (h : WF g1) : WF g2 := by
  obtain ⟨hn, hk, hc, hep⟩ := h
  have hkey : ∀ e ∈ g2.edges, ∃ e1 ∈ g1.edges, e1.1 = e.1 := by
    intro e he
    have : e.1 ∈ edgeKeys g1 := by
      rw [h2]
      exact List.mem_map_of_mem _ he
    obtain ⟨e1, he1, hk1⟩ := List.mem_map.1 this
    exact ⟨e1, he1, hk1⟩
  refine ⟨by rw [← h1]; exact hn, by rw [← h2]; exact hk, ?_, ?_⟩
  · intro e he
    obtain ⟨e1, he1, hk1⟩ := hkey e he
    rw [← hk1]
    exact hc e1 he1
  · intro e he
    obtain ⟨e1, he1, hk1⟩ := hkey e he
    have := hep e1 he1
    rw [hk1] at this
    rw [← hasNode_congr_keys h1, ← hasNode_congr_keys h1]
    exact this

theorem wf_empty : WF (⟨[], []⟩ : Graph ND ED) := by
  refine ⟨List.nodup_nil, List.nodup_nil, ?_, ?_⟩ <;> intro e he <;> cases he

theorem wf_add_node_with_prop {g : Graph ND ED} {k : Key} {p : ND} (h : WF g) :
    WF (add_node_with_prop g k p).1 := by
  rw [add_node_with_prop]
  by_cases hk : hasNode g k = true
  · rw [if_pos hk]
    exact h
  · rw [if_neg hk]
    show WF { g with nodes := g.nodes ++ [(k, p)] }
    obtain ⟨hn, hke, hc, hep⟩ := h
    refine ⟨?_, hke, hc, ?_⟩
    · show ((g.nodes ++ [(k, p)]).map (fun n => n.1)).Nodup
      rw [List.map_append, List.nodup_append]
      refine ⟨hn, List.nodup_singleton _, ?_⟩
      intro a ha hb
      have : a = k := by simpa using hb
      rw [hasNode_iff] at hk
      exact hk (this ▸ ha)
    · intro e he
      have := hep e he
      constructor
      · rw [hasNode_iff]
        show e.1.1 ∈ (g.nodes ++ [(k, p)]).map (fun n => n.1)
        rw [List.map_append]
        exact List.mem_append_left _ (hasNode_iff.1 this.1)
      · rw [hasNode_iff]
        show e.1.2 ∈ (g.nodes ++ [(k, p)]).map (fun n => n.1)
        rw [List.map_append]
        exact List.mem_append_left _ (hasNode_iff.1 this.2)

theorem wf_add_edge_with_prop {g : Graph ND ED} {u v : Key} {p : ED} (h : WF g) :
    WF (add_edge_with_prop g u v p).1 := by
  rw [add_edge_with_prop]
  by_cases huv : u = v
  · rw [if_pos huv]
    exact h
  · rw [if_neg huv]
    by_cases hnn : (hasNode g u && hasNode g v) = true
    · rw [if_pos hnn]
      by_cases he : hasEdge g u v = true
      · rw [if_pos he]
        exact h
      · rw [if_neg he]
        show WF { g with edges := g.edges ++ [(canon u v, p)] }
        obtain ⟨hn, hke, hc, hep⟩ := h
        have hcanon : canon u v ∉ edgeKeys g := fun hmem =>
          he (hasEdge_iff.2 hmem)
        refine ⟨hn, ?_, ?_, ?_⟩
        · show ((g.edges ++ [(canon u v, p)]).map (fun e => e.1)).Nodup
          rw [List.map_append, List.nodup_append]
          refine ⟨hke, List.nodup_singleton _, ?_⟩
          intro a ha hb
          have : a = canon u v := by simpa using hb
          exact hcanon (this ▸ ha)
        · intro e he2
          rcases List.mem_append.1 he2 with h1 | h1
          · exact hc e h1
          · have : e = (canon u v, p) := by simpa using h1
            rw [this]
            exact canon_fst_lt_snd huv
        · intro e he2
          have hpair := hnn
          rw [Bool.and_eq_true] at hpair
          have hnu : hasNode g u = true := hpair.1
          have hnv : hasNode g v = true := hpair.2
          rcases List.mem_append.1 he2 with h1 | h1
          · exact hep e h1
          · have heq : e = (canon u v, p) := by simpa using h1
            rw [heq]
            rcases Nat.lt_or_ge u v with hlt | hge
            · rw [canon_of_lt hlt]
              exact ⟨hnu, hnv⟩
            · have hlt : v < u := Nat.lt_of_le_of_ne hge (fun hh => huv hh.symm)
              rw [canon_comm, canon_of_lt hlt]
              exact ⟨hnv, hnu⟩
    · rw [if_neg hnn]
      exact h

theorem mem_keys_filter {a k : Key} {nodes : List (Key × ND)} :
    a ∈ (nodes.filter (fun n => n.1 != k)).map (fun n => n.1) ↔
      a ∈ nodes.map (fun n => n.1) ∧ a ≠ k := by
  simp only [List.mem_map, List.mem_filter, bne_iff_ne]
  constructor
  · rintro ⟨n, ⟨hn, hne⟩, rfl⟩
    exact ⟨⟨n, hn, rfl⟩, hne⟩
  · rintro ⟨⟨n, hn, rfl⟩, hne⟩
    exact ⟨n, ⟨hn, hne⟩, rfl⟩

theorem wf_remove_nodes {g : Graph ND ED} {k : Key} (h : WF g) :
    WF (remove_nodes g k).1 := by
  rw [remove_nodes]
  by_cases hk : hasNode g k = true
  · rw [if_pos hk]
    obtain ⟨hn, hke, hc, hep⟩ := h
    refine ⟨?_, ?_, ?_, ?_⟩
    · exact ((List.filter_sublist _).map _).nodup hn
    · exact ((List.filter_sublist _).map _).nodup hke
    · intro e he
      exact hc e (List.mem_of_mem_filter he)
    · intro e he
      have hmem := List.mem_of_mem_filter he
      have hcond := List.of_mem_filter he
      have hcond2 : e.1.1 ≠ k ∧ e.1.2 ≠ k := by
        simpa [bne_iff_ne] using hcond
      have := hep e hmem
      constructor
      · rw [hasNode_iff, mem_keys_filter]
        exact ⟨hasNode_iff.1 this.1, hcond2.1⟩
      · rw [hasNode_iff, mem_keys_filter]
        exact ⟨hasNode_iff.1 this.2, hcond2.2⟩
  · rw [if_neg hk]
    exact h

theorem keys_write_node {g : Graph ND ED} {k : Key} {f : ND → ND} :
    (write_node g k f).nodes.map (fun n => n.1) = g.nodes.map (fun n => n.1) := by
  rw [write_node, List.map_map]
  refine List.map_congr_left ?_
  intro n _
  by_cases h : n.1 = k <;> simp [h]

theorem edgeKeys_write_edge {g : Graph ND ED} {u v : Key} {f : ED → ED} :
    edgeKeys (write_edge g u v f) = edgeKeys g := by
  rw [write_edge, edgeKeys, edgeKeys, List.map_map]
  refine List.map_congr_left ?_
  intro e _
  by_cases h : e.1 = canon u v <;> simp [h]

theorem wf_write_node {g : Graph ND ED} {k : Key} {f : ND → ND} (h : WF g) :
    WF (write_node g k f) :=
  wf_of_keys_eq keys_write_node.symm rfl h

theorem wf_write_edge {g : Graph ND ED} {u v : Key} {f : ED → ED} (h : WF g) :
    WF (write_edge g u v f) :=
  @wf_of_keys_eq ND ED g (write_edge g u v f) rfl edgeKeys_write_edge.symm h

theorem wf_add_nodes_loop {rows : List (Key × ND)} :
    ∀ {g : Graph ND ED}, WF g → WF (add_nodes_loop g rows) := by
  induction rows with
  | nil => intro g h; exact h
  | cons r rest ih =>
    intro g h
    rw [add_nodes_loop]
    exact ih (wf_add_node_with_prop h)

theorem wf_add_edges_loop {rows : List ((Key × Key) × ED)} :
    ∀ {g : Graph ND ED}, WF g → WF (add_edges_loop g rows) := by
  induction rows with
  | nil => intro g h; exact h
  | cons r rest ih =>
    intro g h
    rw [add_edges_loop]
    exact ih (wf_add_edge_with_prop h)

theorem wf_set_node_data {w : V → ND → ND} {g : Graph ND ED} {k : Key} {v : V}
    (h : WF g) : WF (set_node_data w g k v).1 := by
  rw [set_node_data]
  by_cases h1 : hasNode g k = true
  · rw [if_pos h1]
    exact wf_write_node h
  · rw [if_neg h1]
    exact h

theorem wf_set_edge_data {w : V → ED → ED} {g : Graph ND ED} {u v : Key} {x : V}
    (h : WF g) : WF (set_edge_data w g u v x).1 := by
  rw [set_edge_data]
  by_cases h1 : hasEdge g u v = true
  · rw [if_pos h1]
    exact wf_write_edge h
  · rw [if_neg h1]
    exact h

theorem wf_set_nodes_data_loop {w : V → ND → ND} {prs : List (Key × V)} :
    ∀ {g : Graph ND ED}, WF g → WF (set_nodes_data_loop w g prs).1 := by
  induction prs with
  | nil => intro g h; exact h
  | cons r rest ih =>
    intro g h
    rw [set_nodes_data_loop]
    by_cases h1 : hasNode g r.1 = true
    · rw [if_pos h1]
      exact ih (wf_write_node h)
    · rw [if_neg h1]
      exact h

theorem wf_set_nodes_data {w : V → ND → ND} {g : Graph ND ED} {keys : List Key}
    {vals : List V} (h : WF g) : WF (set_nodes_data w g keys vals).1 := by
  rw [set_nodes_data]
  by_cases h1 : keys.length = vals.length
  · rw [if_pos h1]
    exact wf_set_nodes_data_loop h
  · rw [if_neg h1]
    exact h

theorem keys_set_nodes_data_all_loop {w : V → ND → ND} :
    ∀ (ns : List (Key × ND)) (vs : List V),
    (set_nodes_data_all_loop w ns vs).1.map (fun n => n.1) = ns.map (fun n => n.1)
  | [], _ => rfl
  | n :: rest, v :: vs => by
    rw [set_nodes_data_all_loop, List.map_cons, List.map_cons,
      keys_set_nodes_data_all_loop rest vs]
  | n :: rest, [] => rfl

theorem wf_set_nodes_data_all {w : V → ND → ND} {g : Graph ND ED} {vals : List V}
    (h : WF g) : WF (set_nodes_data_all w g vals).1 := by
  refine @wf_of_keys_eq ND ED g _ ?_ rfl h
  exact (keys_set_nodes_data_all_loop g.nodes vals).symm

theorem wf_set_edges_data_loop {w : V → ED → ED} {prs : List (Key × Key)} :
    ∀ {g : Graph ND ED} {vals : List V}, WF g → WF (set_edges_data_loop w g prs vals).1 := by
  induction prs with
  | nil => intro g vals h; exact h
  | cons r rest ih =>
    intro g vals h
    match vals with
    | [] => exact h
    | x :: xs =>
      rw [set_edges_data_loop]
      by_cases h1 : hasEdge g r.1 r.2 = true
      · rw [if_pos h1]
        exact ih (wf_write_edge h)
      · rw [if_neg h1]
        exact h

theorem wf_set_edges_data {w : V → ED → ED} {g : Graph ND ED} {us vs : List Key}
    {vals : List V} (h : WF g) : WF (set_edges_data w g us vs vals).1 := by
  rw [set_edges_data]
  by_cases h1 : us.length = vs.length
  · rw [if_pos h1]
    exact wf_set_edges_data_loop h
  · rw [if_neg h1]
    exact h

/-- The states of the store reachable through the wrapper interface: the
empty graph of the freshly specialized class, closed under every
mutating wrapper method (scalar and bulk inserts, node removal, and all
attribute setters). -/
inductive Reachable {ND ED : Type} : Graph ND ED → Prop where
  | empty : Reachable ⟨[], []⟩
  | add_node {g : Graph ND ED} (k : Key) (p : ND) :
      Reachable g → Reachable (UndirectedGraph.add_node g k p).1
  | add_nodes {g : Graph ND ED} (rows : List (Key × ND)) :
      Reachable g → Reachable (UndirectedGraph.add_nodes g rows).1
  | add_edge {g : Graph ND ED} (u v : Key) (p : ED) :
      Reachable g → Reachable (UndirectedGraph.add_edge g u v p).1
  | add_edges {g : Graph ND ED} (rows : List ((Key × Key) × ED)) :
      Reachable g → Reachable (UndirectedGraph.add_edges g rows).1
  | remove_node {g : Graph ND ED} (k : Key) :
      Reachable g → Reachable (UndirectedGraph.remove_node g k).1
  | set_node_data {g : Graph ND ED} {V : Type} (w : V → ND → ND) (k : Key) (v : V) :
      Reachable g → Reachable (UndirectedGraph.set_node_data w g k v).1
  | set_nodes_data {g : Graph ND ED} {V : Type} (w : V → ND → ND)
      (keys : List Key) (vals : List V) :
      Reachable g → Reachable (UndirectedGraph.set_nodes_data w g keys vals).1
  | set_nodes_data_all {g : Graph ND ED} {V : Type} (w : V → ND → ND) (vals : List V) :
      Reachable g → Reachable (UndirectedGraph.set_nodes_data_all w g vals).1
  | set_edge_data {g : Graph ND ED} {V : Type} (w : V → ED → ED) (u v : Key) (x : V) :
      Reachable g → Reachable (UndirectedGraph.set_edge_data w g u v x).1
  | set_edges_data {g : Graph ND ED} {V : Type} (w : V → ED → ED)
      (us vs : List Key) (vals : List V) :
      Reachable g → Reachable (UndirectedGraph.set_edges_data w g us vs vals).1

/-- Every reachable store state is well-formed. -/
theorem reachable_wf {g : Graph ND ED} (h : Reachable g) : WF g := by
  induction h with
  | empty => exact wf_empty
  | add_node k p _ ih => exact wf_add_node_with_prop ih
  | add_nodes rows _ ih => exact wf_add_nodes_loop ih
  | add_edge u v p _ ih => exact wf_add_edge_with_prop ih
  | add_edges rows _ ih => exact wf_add_edges_loop ih
  | remove_node k _ ih => exact wf_remove_nodes ih
  | set_node_data w k v _ ih => exact wf_set_node_data ih
  | set_nodes_data w keys vals _ ih => exact wf_set_nodes_data ih
  | set_nodes_data_all w vals _ ih => exact wf_set_nodes_data_all ih
  | set_edge_data w u v x _ ih => exact wf_set_edge_data ih
  | set_edges_data w us vs vals _ ih => exact wf_set_edges_data ih

theorem hasEdge_comm (g : Graph ND ED) (u v : Key) : hasEdge g u v = hasEdge g v u := by
  rw [hasEdge, hasEdge, canon_comm]

theorem edge_prop_comm (g : Graph ND ED) (u v : Key) :
    edge_prop g u v = edge_prop g v u := by
  rw [edge_prop, edge_prop, canon_comm]

theorem add_edge_comm (g : Graph ND ED) (u v : Key) (p : ED) :
    UndirectedGraph.add_edge g u v p = UndirectedGraph.add_edge g v u p := by
  rw [UndirectedGraph.add_edge, UndirectedGraph.add_edge,
    add_edge_with_prop, add_edge_with_prop]
  by_cases huv : u = v
  · rw [if_pos huv, if_pos huv.symm]
  · rw [if_neg huv, if_neg (Ne.symm huv),
      Bool.and_comm (hasNode g v) (hasNode g u), hasEdge_comm g v u, canon_comm v u]

theorem find?_append_fresh {α β : Type} [BEq α] [LawfulBEq α] (c : α) (b : β) :
    ∀ (l : List (α × β)), l.any (fun e => e.1 == c) = false →
    (((l ++ [(c, b)]).find? (fun e => e.1 == c)).map (fun e => e.2)) = some b := by
  intro l
  induction l with
  | nil => intro _; simp [List.find?]
  | cons e rest ih =>
    intro h
    rw [List.any_cons, Bool.or_eq_false_iff] at h
    rw [List.cons_append, List.find?_cons_of_neg _ (by simp [h.1])]
    exact ih h.2

theorem node_prop_add_node_with_prop_fresh {g : Graph ND ED} {k : Key} {a : ND}
    (h : hasNode g k = false) :
    node_prop (add_node_with_prop g k a).1 k = some a := by
  rw [add_node_with_prop, if_neg (by rw [h]; exact Bool.false_ne_true)]
  rw [node_prop]
  exact find?_append_fresh k a g.nodes h

theorem edge_prop_add_edge_with_prop_fresh {g : Graph ND ED} {u v : Key} {a : ED}
    (h1 : hasNode g u = true) (h2 : hasNode g v = true) (h3 : u ≠ v)
    (h4 : hasEdge g u v = false) :
    edge_prop (add_edge_with_prop g u v a).1 u v = some a := by
  rw [add_edge_with_prop, if_neg h3, if_pos (by rw [h1, h2]; rfl),
    if_neg (by rw [h4]; exact Bool.false_ne_true)]
  rw [edge_prop]
  exact find?_append_fresh (canon u v) a g.edges h4

theorem find?_map_update_self {α β : Type} [DecidableEq α] [BEq α] [LawfulBEq α]
    (c : α) (f : β → β) :
    ∀ (l : List (α × β)),
    (((l.map (fun n => if n.1 = c then (n.1, f n.2) else n)).find?
        (fun n => n.1 == c)).map (fun n => n.2))
      = (((l.find? (fun n => n.1 == c)).map (fun n => n.2)).map f) := by
  intro l
  induction l with
  | nil => rfl
  | cons n rest ih =>
    by_cases h : n.1 = c
    · rw [List.map_cons, if_pos h,
        List.find?_cons_of_pos _ (by simp [h]),
        List.find?_cons_of_pos _ (by simp [h])]
      simp
    · rw [List.map_cons, if_neg h,
        List.find?_cons_of_neg _ (by simp [h]),
        List.find?_cons_of_neg _ (by simp [h])]
      exact ih

theorem find?_map_update_other {α β : Type} [DecidableEq α] [BEq α] [LawfulBEq α]
    (c a : α) (hne : a ≠ c) (f : β → β) :
    ∀ (l : List (α × β)),
    (((l.map (fun n => if n.1 = c then (n.1, f n.2) else n)).find?
        (fun n => n.1 == a)).map (fun n => n.2))
      = ((l.find? (fun n => n.1 == a)).map (fun n => n.2)) := by
  intro l
  induction l with
  | nil => rfl
  | cons n rest ih =>
    by_cases h : n.1 = c
    · have hf : ¬((fun q : α × β => q.1 == a) (n.1, f n.2)) = true := by
        simp only [beq_iff_eq]
        exact fun hh => hne (hh.symm.trans h)
      have hf2 : ¬((fun q : α × β => q.1 == a) n) = true := by
        simp only [beq_iff_eq]
        exact fun hh => hne (hh.symm.trans h)
      rw [List.map_cons, if_pos h,
        @List.find?_cons_of_neg (α × β) (fun q => q.1 == a) (n.1, f n.2) _ hf,
        @List.find?_cons_of_neg (α × β) (fun q => q.1 == a) n _ hf2]
      exact ih
    · rw [List.map_cons, if_neg h]
      by_cases h2 : ((fun q : α × β => q.1 == a) n) = true
      · rw [@List.find?_cons_of_pos (α × β) (fun q => q.1 == a) n _ h2,
          @List.find?_cons_of_pos (α × β) (fun q => q.1 == a) n _ h2]
      · rw [@List.find?_cons_of_neg (α × β) (fun q => q.1 == a) n _ h2,
          @List.find?_cons_of_neg (α × β) (fun q => q.1 == a) n _ h2]
        exact ih

theorem node_prop_write_node_self {g : Graph ND ED} {k : Key} {f : ND → ND} :
    node_prop (write_node g k f) k = (node_prop g k).map f :=
  find?_map_update_self k f g.nodes

theorem node_prop_write_node_other {g : Graph ND ED} {k a : Key} {f : ND → ND}
    (hne : a ≠ k) :
    node_prop (write_node g k f) a = node_prop g a :=
  find?_map_update_other k a hne f g.nodes

theorem edge_prop_write_edge_self {g : Graph ND ED} {u v : Key} {f : ED → ED} :
    edge_prop (write_edge g u v f) u v = (edge_prop g u v).map f :=
  find?_map_update_self (canon u v) f g.edges

theorem edge_prop_write_edge_other {g : Graph ND ED} {u v a b : Key} {f : ED → ED}
    (hne : canon a b ≠ canon u v) :
    edge_prop (write_edge g u v f) a b = edge_prop g a b :=
  find?_map_update_other (canon u v) (canon a b) hne f g.edges

theorem hasNode_write_node {g : Graph ND ED} {k a : Key} {f : ND → ND} :
    hasNode (write_node g k f) a = hasNode g a :=
  hasNode_congr_keys keys_write_node

theorem hasEdge_eq_any_keys {g : Graph ND ED} {u v : Key} :
    hasEdge g u v = (edgeKeys g).any (fun q => q == canon u v) := by
  rw [hasEdge, edgeKeys]
  induction g.edges with
  | nil => rfl
  | cons e rest ih => simp only [List.any_cons, List.map_cons, ih]

theorem hasEdge_write_edge {g : Graph ND ED} {u v a b : Key} {f : ED → ED} :
    hasEdge (write_edge g u v f) a b = hasEdge g a b := by
  rw [hasEdge_eq_any_keys, hasEdge_eq_any_keys, edgeKeys_write_edge]

theorem set_nodes_data_loop_untouched {w : V → ND → ND} (a : Key) :
    ∀ (prs : List (Key × V)) (g : Graph ND ED), a ∉ prs.map (fun pr => pr.1) →
    node_prop (set_nodes_data_loop w g prs).1 a = node_prop g a := by
  intro prs
  induction prs with
  | nil => intro g _; rfl
  | cons r rest ih =>
    intro g h
    rw [List.map_cons, List.mem_cons] at h
    push_neg at h
    rw [set_nodes_data_loop]
    by_cases hn : hasNode g r.1 = true
    · rw [if_pos hn]
      rw [ih _ h.2]
      exact node_prop_write_node_other h.1
    · rw [if_neg hn]

theorem set_nodes_data_loop_writes {w : V → ND → ND} :
    ∀ (prs : List (Key × V)) (g : Graph ND ED), (prs.map (fun pr => pr.1)).Nodup →
    (∀ pr ∈ prs, hasNode g pr.1 = true) →
    (set_nodes_data_loop w g prs).2 = none ∧
    ∀ pr ∈ prs, node_prop (set_nodes_data_loop w g prs).1 pr.1
      = (node_prop g pr.1).map (w pr.2) := by
  intro prs
  induction prs with
  | nil => intro g _ _; exact ⟨rfl, fun pr hpr => absurd hpr (List.not_mem_nil pr)⟩
  | cons r rest ih =>
    intro g hnd hall
    rw [List.map_cons, List.nodup_cons] at hnd
    have hn : hasNode g r.1 = true := hall r (List.mem_cons_self r rest)
    rw [set_nodes_data_loop, if_pos hn]
    have hall2 : ∀ pr ∈ rest, hasNode (write_node g r.1 (w r.2)) pr.1 = true := by
      intro pr hpr
      rw [hasNode_write_node]
      exact hall pr (List.mem_cons_of_mem r hpr)
    obtain ⟨herr, hwr⟩ := ih (write_node g r.1 (w r.2)) hnd.2 hall2
    refine ⟨herr, ?_⟩
    intro pr hpr
    rcases List.mem_cons.1 hpr with heq | hmem
    · rw [heq]
      rw [set_nodes_data_loop_untouched r.1 rest _ hnd.1]
      exact node_prop_write_node_self
    · rw [hwr pr hmem]
      have hne : pr.1 ≠ r.1 := by
        intro hh
        exact hnd.1 (hh ▸ List.mem_map_of_mem _ hmem)
      rw [node_prop_write_node_other hne]

theorem set_edges_data_loop_take {w : V → ED → ED} :
    ∀ (prs : List (Key × Key)) (vals : List V) (g : Graph ND ED),
    set_edges_data_loop w g prs vals = set_edges_data_loop w g prs (vals.take prs.length) := by
  intro prs
  induction prs with
  | nil => intro vals g; rfl
  | cons p rest ih =>
    intro vals g
    match vals with
    | [] => rfl
    | x :: xs =>
      rw [List.length_cons, List.take_succ_cons, set_edges_data_loop,
        set_edges_data_loop]
      by_cases he : hasEdge g p.1 p.2 = true
      · rw [if_pos he, if_pos he]
        exact ih xs _
      · rw [if_neg he, if_neg he]

theorem set_edges_data_loop_untouched {w : V → ED → ED} (a b : Key) :
    ∀ (prs : List (Key × Key)) (vals : List V) (g : Graph ND ED),
    canon a b ∉ prs.map (fun q => canon q.1 q.2) →
    edge_prop (set_edges_data_loop w g prs vals).1 a b = edge_prop g a b := by
  intro prs
  induction prs with
  | nil => intro vals g _; rfl
  | cons p rest ih =>
    intro vals g h
    rw [List.map_cons, List.mem_cons] at h
    push_neg at h
    match vals with
    | [] => rfl
    | x :: xs =>
      rw [set_edges_data_loop]
      by_cases he : hasEdge g p.1 p.2 = true
      · rw [if_pos he]
        rw [ih xs _ h.2]
        exact edge_prop_write_edge_other h.1
      · rw [if_neg he]

theorem set_edges_data_loop_writes {w : V → ED → ED} :
    ∀ (prs : List (Key × Key)) (vals : List V) (g : Graph ND ED),
    prs.length ≤ vals.length →
    (prs.map (fun q => canon q.1 q.2)).Nodup →
    (∀ q ∈ prs, hasEdge g q.1 q.2 = true) →
    (set_edges_data_loop w g prs vals).2 = none ∧
    ∀ tr ∈ prs.zip vals, edge_prop (set_edges_data_loop w g prs vals).1 tr.1.1 tr.1.2
      = (edge_prop g tr.1.1 tr.1.2).map (w tr.2) := by
  intro prs
  induction prs with
  | nil => intro vals g _ _ _; exact ⟨rfl, fun tr htr => absurd htr (by simp)⟩
  | cons p rest ih =>
    intro vals g hlen hnd hall
    match vals with
    | [] => exact absurd hlen (by simp)
    | x :: xs =>
      rw [List.map_cons, List.nodup_cons] at hnd
      have he : hasEdge g p.1 p.2 = true := hall p (List.mem_cons_self p rest)
      rw [set_edges_data_loop, if_pos he]
      have hall2 : ∀ q ∈ rest, hasEdge (write_edge g p.1 p.2 (w x)) q.1 q.2 = true := by
        intro q hq
        rw [hasEdge_write_edge]
        exact hall q (List.mem_cons_of_mem p hq)
      have hlen2 : rest.length ≤ xs.length := by
        simpa using hlen
      obtain ⟨herr, hwr⟩ := ih xs (write_edge g p.1 p.2 (w x)) hlen2 hnd.2 hall2
      refine ⟨herr, ?_⟩
      intro tr htr
      rcases List.mem_cons.1 (by simpa [List.zip_cons_cons] using htr) with heq | hmem
      · rw [heq]
        rw [set_edges_data_loop_untouched p.1 p.2 rest xs _ hnd.1]
        exact edge_prop_write_edge_self
      · rw [hwr tr hmem]
        have hne : canon tr.1.1 tr.1.2 ≠ canon p.1 p.2 := by
          intro hh
          have : tr.1 ∈ rest := (List.of_mem_zip hmem).1
          exact hnd.1 (hh ▸ List.mem_map_of_mem _ this)
        rw [edge_prop_write_edge_other hne]

theorem set_nodes_data_all_loop_ge {w : V → ND → ND} :
    ∀ (ns : List (Key × ND)) (vs : List V), ns.length ≤ vs.length →
    (set_nodes_data_all_loop w ns vs).2 = none ∧
    (set_nodes_data_all_loop w ns vs).1
      = (ns.zip vs).map (fun pr => (pr.1.1, w pr.2 pr.1.2)) := by
  intro ns
  induction ns with
  | nil => intro vs _; exact ⟨rfl, by simp [set_nodes_data_all_loop]⟩
  | cons n rest ih =>
    intro vs hlen
    match vs with
    | [] => exact absurd hlen (by simp)
    | v :: vsr =>
      have h2 : rest.length ≤ vsr.length := by simpa using hlen
      obtain ⟨he, hl⟩ := ih vsr h2
      rw [set_nodes_data_all_loop]
      exact ⟨he, by rw [List.zip_cons_cons, List.map_cons, hl]⟩

theorem set_nodes_data_all_loop_take {w : V → ND → ND} :
    ∀ (ns : List (Key × ND)) (vs : List V),
    set_nodes_data_all_loop w ns vs = set_nodes_data_all_loop w ns (vs.take ns.length)
  | [], vs => rfl
  | n :: rest, [] => rfl
  | n :: rest, v :: vsr => by
    rw [List.length_cons, List.take_succ_cons, set_nodes_data_all_loop,
      set_nodes_data_all_loop, set_nodes_data_all_loop_take rest vsr]

theorem set_nodes_data_all_loop_lt {w : V → ND → ND} :
    ∀ (ns : List (Key × ND)) (vs : List V), vs.length < ns.length →
    (set_nodes_data_all_loop w ns vs).2 = some PyErr.indexOutOfRange := by
  intro ns
  induction ns with
  | nil => intro vs h; exact absurd h (by simp)
  | cons n rest ih =>
    intro vs h
    match vs with
    | [] => rfl
    | v :: vsr =>
      rw [set_nodes_data_all_loop]
      exact ih vsr (by simpa using h)

theorem add_nodes_loop_eq_foldl :
    ∀ (rows : List (Key × ND)) (g : Graph ND ED),
    add_nodes_loop g rows
      = rows.foldl (fun h r => (UndirectedGraph.add_node h r.1 r.2).1) g := by
  intro rows
  induction rows with
  | nil => intro g; rfl
  | cons r rest ih =>
    intro g
    rw [add_nodes_loop, List.foldl_cons]
    exact ih _

theorem add_edges_loop_eq_foldl :
    ∀ (rows : List ((Key × Key) × ED)) (g : Graph ND ED),
    add_edges_loop g rows
      = rows.foldl (fun h r => (UndirectedGraph.add_edge h r.1.1 r.1.2 r.2).1) g := by
  intro rows
  induction rows with
  | nil => intro g; rfl
  | cons r rest ih =>
    intro g
    rw [add_edges_loop, List.foldl_cons]
    exact ih _

theorem flatpairs_nodup {g : Graph ND ED} {keys : List Key}
    (hk : (edgeKeys g).Nodup) (hc : ∀ e ∈ g.edges, e.1.1 < e.1.2)
    (hnd : keys.Nodup) :
    (keys.flatMap (fun u => ((neighbors g u).filter (fun v => decide (u < v))).map
      (fun v => (u, v)))).Nodup := by
  rw [List.nodup_flatMap]
  constructor
  · intro u _
    exact ((neighbors_nodup hk hc).filter _).map
      (fun a b hab => by simpa using congrArg Prod.snd hab)
  · refine hnd.imp ?_
    intro a b hab p hpa hpb
    obtain ⟨v, _, hv⟩ := List.mem_map.1 hpa
    obtain ⟨w2, _, hw⟩ := List.mem_map.1 hpb
    rw [← hv] at hw
    have h2 : b = a := (Prod.ext_iff.1 hw).1
    exact hab h2.symm

theorem mem_flatpairs {g : Graph ND ED} {keys : List Key} {p : Key × Key}
    (hc : ∀ e ∈ g.edges, e.1.1 < e.1.2) :
    p ∈ keys.flatMap (fun u => ((neighbors g u).filter (fun v => decide (u < v))).map
      (fun v => (u, v))) ↔ p ∈ edgeKeys g ∧ p.1 ∈ keys := by
  simp only [List.mem_flatMap, List.mem_map, List.mem_filter]
  constructor
  · rintro ⟨u, hu, v, ⟨hv, hlt⟩, hp⟩
    have hlt2 : u < v := of_decide_eq_true hlt
    have hmem := (mem_neighbors_wf hc).1 hv
    rw [canon_of_lt hlt2] at hmem
    rw [← hp]
    exact ⟨hmem, hu⟩
  · rintro ⟨hp, hkmem⟩
    have hlt : p.1 < p.2 := by
      obtain ⟨e, he, hkey⟩ := List.mem_map.1 hp
      rw [← hkey]
      exact hc e he
    refine ⟨p.1, hkmem, p.2, ⟨?_, decide_eq_true hlt⟩, rfl⟩
    rw [mem_neighbors_wf hc, canon_of_lt hlt]
    exact hp

theorem mem_edges_endpoints {g : Graph ND ED} {p : Key × Key}
    (hp : p ∈ UndirectedGraph.edges g) :
    p.1 ∈ g.nodes.map (fun n => n.1) ∧
    (∃ e ∈ g.edges, e.1 = (p.1, p.2) ∨ e.1 = (p.2, p.1)) := by
  rw [UndirectedGraph.edges] at hp
  simp only [List.mem_flatMap, List.mem_map, List.mem_filter] at hp
  obtain ⟨n, hn, v, ⟨hv, _⟩, hpp⟩ := hp
  constructor
  · rw [← hpp]
    exact List.mem_map_of_mem _ hn
  · have hmem := mem_neighbors.1 hv
    rw [← hpp]
    simpa using hmem

/-- The empty store of a freshly specialized trivial-schema graph class. -/
def emptyU : Graph Unit Unit := ⟨[], []⟩

/-- Nodes 1, 2, 3 inserted in this order, no edges. -/
def gDemoNodes : Graph Unit Unit :=
  (UndirectedGraph.add_node ((UndirectedGraph.add_node
    ((UndirectedGraph.add_node emptyU 1 ()).1) 2 ()).1) 3 ()).1

/-- The demo node set with edge {1,2} inserted before edge {1,3}. -/
def gDemoA : Graph Unit Unit :=
  (UndirectedGraph.add_edge ((UndirectedGraph.add_edge gDemoNodes 1 2 ()).1) 1 3 ()).1

/-- The demo node set with edge {1,3} inserted before edge {1,2}: same node
keys and same edge set as `gDemoA`, different insertion order. -/
def gDemoB : Graph Unit Unit :=
  (UndirectedGraph.add_edge ((UndirectedGraph.add_edge gDemoNodes 1 3 ()).1) 1 2 ()).1

/-- `gDemoA` after an attempted self-loop insertion at node 2. -/
def gDemoLoop : Graph Unit Unit := (UndirectedGraph.add_edge gDemoA 2 2 ()).1

/-- A two-node, one-edge store with integer node and edge attributes. -/
def gInt : Graph Int Int := ⟨[(1, 10), (2, 20)], [((1, 2), 30)]⟩

/-- A two-node store with integer attributes and no edges. -/
def gInt0 : Graph Int Int := ⟨[(1, 10), (2, 20)], []⟩

theorem filter_key_length_le_one {α β : Type} [BEq α] [LawfulBEq α] (c : α) :
    ∀ (l : List (α × β)), (l.map (fun e => e.1)).Nodup →
    (l.filter (fun e => e.1 == c)).length ≤ 1 := by
  intro l
  induction l with
  | nil => intro _; simp
  | cons e rest ih =>
    intro hnd
    rw [List.map_cons, List.nodup_cons] at hnd
    rw [List.filter_cons]
    by_cases hh : (e.1 == c) = true
    · rw [if_pos hh]
      have hnil : rest.filter (fun q => q.1 == c) = [] := by
        rw [List.filter_eq_nil_iff]
        intro x hx hpx
        have hx1 : x.1 = c := by simpa using hpx
        have he1 : e.1 = c := by simpa using hh
        exact hnd.1 (by rw [he1, ← hx1]; exact List.mem_map_of_mem _ hx)
      rw [hnil]
      simp
    · rw [if_neg hh]
      exact ih hnd.2

/-- C1 counterexample: two stores with identical node stores and the same
edge set — built by inserting the edges {1,2} and {1,3} in the two possible
orders — yield different edges() sequences, so the sequence is not
determined by the node-key set and edge set alone: the neighbor vectors
(`Container::VEC`) replay edge insertion order. -/
theorem claim_C1_counterexample :
    gDemoA.nodes = gDemoB.nodes ∧
    List.Perm (edgeKeys gDemoA) (edgeKeys gDemoB) ∧
    UndirectedGraph.edges gDemoA = [(1, 2), (1, 3)] ∧
    UndirectedGraph.edges gDemoB = [(1, 3), (1, 2)] ∧
    UndirectedGraph.edges gDemoA ≠ UndirectedGraph.edges gDemoB := by
  decide

/-- C1 (amended): for a well-formed store, edges() with no node filter
yields each stored edge exactly once — the yielded sequence is a
permutation of the stored canonical edge list — every yielded pair
satisfies u < v, and the number of yielded items equals num_edges().
The result is unaffected by the direction in which an edge was supplied
to add_edge (swapping the endpoints produces the identical store), but
the order of the yielded sequence follows the store's insertion orders
and is not determined by the node-key set and edge set alone. -/
theorem claim_C1_theorem {ND ED : Type} {g : Graph ND ED} (h : WF g) :
    List.Perm (UndirectedGraph.edges g) (edgeKeys g) ∧
    (∀ p ∈ UndirectedGraph.edges g, p.1 < p.2) ∧
    (UndirectedGraph.edges g).length = UndirectedGraph.num_edges g ∧
    (∀ (u v : Key) (p : ED),
      UndirectedGraph.add_edge g u v p = UndirectedGraph.add_edge g v u p) := by
  have hperm := edges_perm h
  refine ⟨hperm, ?_, ?_, fun u v p => add_edge_comm g u v p⟩
  · intro p hp
    have hmem := (mem_edges h).1 hp
    obtain ⟨e, he, hkey⟩ := List.mem_map.1 hmem
    rw [← hkey]
    exact h.2.2.1 e he
  · rw [hperm.length_eq, UndirectedGraph.num_edges, graph_lite.num_edges,
      edgeKeys, List.length_map]

/-- C1 witness: the amended statement evaluated on the concrete store
`gDemoA`. -/
theorem claim_C1_witness :
    WF gDemoA ∧
    (List.Perm (UndirectedGraph.edges gDemoA) (edgeKeys gDemoA) ∧
     (∀ p ∈ UndirectedGraph.edges gDemoA, p.1 < p.2) ∧
     (UndirectedGraph.edges gDemoA).length = UndirectedGraph.num_edges gDemoA ∧
     (∀ (u v : Key) (p : Unit),
       UndirectedGraph.add_edge gDemoA u v p = UndirectedGraph.add_edge gDemoA v u p)) :=
  ⟨by decide, claim_C1_theorem (by decide)⟩

/-- C2 counterexample: adding the self-loop (2,2) to a store containing node
2 returns normally with the store unchanged; the surfaced error is `none`,
not a SelfLoop error — the wrapper never checks the status code returned by
`add_edge_with_prop`. -/
theorem claim_C2_counterexample :
    hasNode gDemoNodes 2 = true ∧
    UndirectedGraph.add_edge gDemoNodes 2 2 () = (gDemoNodes, none) := by
  decide

/-- C2 (amended): a self-loop, an absent endpoint, or an already-existing
edge makes the underlying `add_edge_with_prop` reject the insertion — the
store is unchanged and the status result is 0 — but the wrapper discards
the status, so the call returns normally and no error is reported to the
caller. -/
theorem claim_C2_theorem {ND ED : Type} {g : Graph ND ED} {u v : Key} {p : ED} :
    (u = v → add_edge_with_prop g u v p = (g, 0) ∧
      UndirectedGraph.add_edge g u v p = (g, none)) ∧
    ((hasNode g u = false ∨ hasNode g v = false) →
      add_edge_with_prop g u v p = (g, 0) ∧
      UndirectedGraph.add_edge g u v p = (g, none)) ∧
    (hasEdge g u v = true → add_edge_with_prop g u v p = (g, 0) ∧
      UndirectedGraph.add_edge g u v p = (g, none)) := by
  have main : add_edge_with_prop g u v p = (g, 0) →
      UndirectedGraph.add_edge g u v p = (g, none) := by
    intro hz
    rw [UndirectedGraph.add_edge, hz]
  refine ⟨?_, ?_, ?_⟩
  · intro huv
    have hz : add_edge_with_prop g u v p = (g, 0) := by
      rw [add_edge_with_prop, if_pos huv]
    exact ⟨hz, main hz⟩
  · intro hmiss
    have hz : add_edge_with_prop g u v p = (g, 0) := by
      rw [add_edge_with_prop]
      by_cases huv : u = v
      · rw [if_pos huv]
      · rw [if_neg huv, if_neg ?_]
        rcases hmiss with hm | hm <;> rw [Bool.and_eq_true] <;> rw [hm] <;> simp
    exact ⟨hz, main hz⟩
  · intro hdup
    have hz : add_edge_with_prop g u v p = (g, 0) := by
      rw [add_edge_with_prop]
      by_cases huv : u = v
      · rw [if_pos huv]
      · rw [if_neg huv]
        by_cases hnn : (hasNode g u && hasNode g v) = true
        · rw [if_pos hnn, if_pos hdup]
        · rw [if_neg hnn]
    exact ⟨hz, main hz⟩

/-- C2 witness: self-loop, unknown endpoint and duplicate edge each leave
the concrete stores unchanged with no reported error. -/
theorem claim_C2_witness :
    (add_edge_with_prop gDemoNodes 2 2 () = (gDemoNodes, 0) ∧
     UndirectedGraph.add_edge gDemoNodes 2 2 () = (gDemoNodes, none)) ∧
    (add_edge_with_prop gDemoNodes 1 9 () = (gDemoNodes, 0) ∧
     UndirectedGraph.add_edge gDemoNodes 1 9 () = (gDemoNodes, none)) ∧
    (add_edge_with_prop gDemoA 1 2 () = (gDemoA, 0) ∧
     UndirectedGraph.add_edge gDemoA 1 2 () = (gDemoA, none)) :=
  ⟨(@claim_C2_theorem Unit Unit gDemoNodes 2 2 ()).1 rfl,
   (@claim_C2_theorem Unit Unit gDemoNodes 1 9 ()).2.1 (Or.inr (by decide)),
   (@claim_C2_theorem Unit Unit gDemoA 1 2 ()).2.2 (by decide)⟩

/-- C3 counterexample: removing an absent key returns normally with the
store unchanged; the surfaced error is `none`, not an UnknownNode error —
the wrapper discards the count returned by `remove_nodes`. -/
theorem claim_C3_counterexample :
    hasNode emptyU 5 = false ∧
    UndirectedGraph.remove_node emptyU 5 = (emptyU, none) := by
  decide

/-- C3 (amended): removing a present node k removes k and every incident
edge — afterwards no pair yielded by edges() contains k, num_edges() has
decreased by exactly the prior degree of k, and k is gone — while removing
an absent key is a silent no-op: the store is unchanged and no error is
reported to the caller. -/
theorem claim_C3_theorem {ND ED : Type} {g : Graph ND ED} {k : Key} :
    (hasNode g k = true →
      (∀ p ∈ UndirectedGraph.edges (UndirectedGraph.remove_node g k).1,
        p.1 ≠ k ∧ p.2 ≠ k) ∧
      UndirectedGraph.num_edges (UndirectedGraph.remove_node g k).1
        = UndirectedGraph.num_edges g - graph_lite.count_neighbors g k ∧
      hasNode (UndirectedGraph.remove_node g k).1 k = false) ∧
    (hasNode g k = false → UndirectedGraph.remove_node g k = (g, none)) := by
  constructor
  · intro h
    rw [UndirectedGraph.remove_node, remove_nodes, if_pos h]
    refine ⟨?_, ?_, ?_⟩
    · intro p hp
      have hend := mem_edges_endpoints hp
      obtain ⟨_, hne1⟩ := mem_keys_filter.1 hend.1
      obtain ⟨e, he2, hcase⟩ := hend.2
      have hcond : e.1.1 ≠ k ∧ e.1.2 ≠ k := by
        simpa [bne_iff_ne] using List.of_mem_filter he2
      refine ⟨hne1, ?_⟩
      rcases hcase with hh | hh
      · have : e.1.2 = p.2 := by rw [hh]
        rw [← this]
        exact hcond.2
      · have : e.1.1 = p.2 := by rw [hh]
        rw [← this]
        exact hcond.1
    · have hsum := nbr_filterMap_length k g.edges
      rw [UndirectedGraph.num_edges, UndirectedGraph.num_edges,
        graph_lite.num_edges, graph_lite.num_edges,
        graph_lite.count_neighbors]
      show (g.edges.filter (fun e => e.1.1 != k && e.1.2 != k)).length
        = g.edges.length - (neighbors g k).length
      rw [neighbors]
      omega
    · rw [← Bool.not_eq_true]
      intro hh
      obtain ⟨_, hne⟩ := mem_keys_filter.1 (hasNode_iff.1 hh)
      exact hne rfl
  · intro h
    rw [UndirectedGraph.remove_node, remove_nodes,
      if_neg (by rw [h]; exact Bool.false_ne_true)]

/-- C3 witness: the amended statement evaluated on `gDemoA` at the present
key 1 and the absent key 9. -/
theorem claim_C3_witness :
    ((∀ p ∈ UndirectedGraph.edges (UndirectedGraph.remove_node gDemoA 1).1,
        p.1 ≠ 1 ∧ p.2 ≠ 1) ∧
      UndirectedGraph.num_edges (UndirectedGraph.remove_node gDemoA 1).1
        = UndirectedGraph.num_edges gDemoA - graph_lite.count_neighbors gDemoA 1 ∧
      hasNode (UndirectedGraph.remove_node gDemoA 1).1 1 = false) ∧
    UndirectedGraph.remove_node gDemoA 9 = (gDemoA, none) :=
  ⟨(@claim_C3_theorem Unit Unit gDemoA 1).1 (by decide),
   (@claim_C3_theorem Unit Unit gDemoA 9).2 (by decide)⟩

/-- C4: adding a node with a fresh key stores the supplied attribute record
unchanged, so every per-field getter — any projection f out of the record,
covering scalar fields and every component of array fields — returns
exactly the supplied value. -/
theorem claim_C4_theorem {ND ED : Type} {g : Graph ND ED} {k : Key} {a : ND}
    (h : hasNode g k = false) :
    ∀ (V : Type) (f : ND → V),
      get_node_data f (UndirectedGraph.add_node g k a).1 k = some (f a) := by
  intro V f
  show (node_prop (add_node_with_prop g k a).1 k).map f = some (f a)
  rw [node_prop_add_node_with_prop_fresh h]
  rfl

/-- C4 witness: a record with a scalar and a 3-component array field
round-trips through add_node and the whole-record getter. -/
theorem claim_C4_witness :
    hasNode (⟨[], []⟩ : Graph (Int × List Int) Unit) 7 = false ∧
    get_node_data (fun r => r) (UndirectedGraph.add_node
      (⟨[], []⟩ : Graph (Int × List Int) Unit) 7 (5, [1, 2, 3])).1 7
      = some ((fun r => r) ((5 : Int), ([1, 2, 3] : List Int))) :=
  ⟨rfl, @claim_C4_theorem (Int × List Int) Unit ⟨[], []⟩ 7 (5, [1, 2, 3]) rfl
    (Int × List Int) (fun r => r)⟩

/-- C5: for undirected graphs both endpoint orders address the same edge
attribute record: after add_edge(u, v, a) the per-field getter returns the
same value for (v, u) as for (u, v) — namely the stored field of a — and
getter symmetry holds on every store and endpoint pair. -/
theorem claim_C5_theorem {ND ED V : Type} (g : Graph ND ED) (u v : Key)
    (f : ED → V) (a : ED) (h1 : hasNode g u = true) (h2 : hasNode g v = true)
    (h3 : u ≠ v) (h4 : hasEdge g u v = false) :
    get_edge_data f (UndirectedGraph.add_edge g u v a).1 v u
      = get_edge_data f (UndirectedGraph.add_edge g u v a).1 u v ∧
    get_edge_data f (UndirectedGraph.add_edge g u v a).1 u v = some (f a) ∧
    (∀ (g2 : Graph ND ED) (x y : Key),
      get_edge_data f g2 x y = get_edge_data f g2 y x) := by
  have hsym : ∀ (g2 : Graph ND ED) (x y : Key),
      get_edge_data f g2 x y = get_edge_data f g2 y x := by
    intro g2 x y
    rw [get_edge_data, get_edge_data, edge_prop_comm]
  refine ⟨hsym _ v u, ?_, hsym⟩
  show (edge_prop (add_edge_with_prop g u v a).1 u v).map f = some (f a)
  rw [edge_prop_add_edge_with_prop_fresh h1 h2 h3 h4]
  rfl

/-- C5 witness: the symmetry and round-trip evaluated on a concrete store
with integer edge attributes. -/
theorem claim_C5_witness :
    (get_edge_data (fun x => x) (UndirectedGraph.add_edge gInt0 1 2 77).1 2 1
      = get_edge_data (fun x => x) (UndirectedGraph.add_edge gInt0 1 2 77).1 1 2 ∧
     get_edge_data (fun x => x) (UndirectedGraph.add_edge gInt0 1 2 77).1 1 2
      = some ((fun x : Int => x) 77) ∧
     (∀ (g2 : Graph Int Int) (x y : Key),
       get_edge_data (fun x => x) g2 x y = get_edge_data (fun x => x) g2 y x)) :=
  claim_C5_theorem gInt0 1 2 (fun x => x) 77 (by decide) (by decide)
    (by decide) (by decide)

/-- C6: in every store state reachable through the wrapper interface, every
stored edge joins two distinct present nodes (no self-loop is ever stored,
even when add_edge(u, u, ...) is called), and at most one edge is stored
for any unordered pair of nodes. -/
theorem claim_C6_theorem {ND ED : Type} {g : Graph ND ED} (h : Reachable g) :
    (∀ e ∈ g.edges, e.1.1 ≠ e.1.2 ∧
      hasNode g e.1.1 = true ∧ hasNode g e.1.2 = true) ∧
    (∀ u v : Key, (g.edges.filter (fun e => e.1 == canon u v)).length ≤ 1) := by
  have hwf := reachable_wf h
  obtain ⟨hn, hk, hc, hep⟩ := hwf
  constructor
  · intro e he
    exact ⟨Nat.ne_of_lt (hc e he), hep e he⟩
  · intro u v
    exact filter_key_length_le_one (canon u v) g.edges hk

/-- C6 witness: the invariant evaluated on a concrete reachable store whose
construction includes an attempted self-loop insertion. -/
theorem claim_C6_witness :
    (∀ e ∈ gDemoLoop.edges, e.1.1 ≠ e.1.2 ∧
      hasNode gDemoLoop e.1.1 = true ∧ hasNode gDemoLoop e.1.2 = true) ∧
    (∀ u v : Key, (gDemoLoop.edges.filter (fun e => e.1 == canon u v)).length ≤ 1) :=
  claim_C6_theorem
    (Reachable.add_edge 2 2 ()
      (Reachable.add_edge 1 3 ()
        (Reachable.add_edge 1 2 ()
          (Reachable.add_node 3 ()
            (Reachable.add_node 2 ()
              (Reachable.add_node 1 () Reachable.empty))))))

/-- C7 counterexample: with the duplicate key array [1, 1] on a store whose
edges are {1,2} and {1,3}, edges_by_nodes returns each matched edge twice —
not one row per matched edge. -/
theorem claim_C7_counterexample :
    edges_by_nodes gDemoA [1, 1] = some [(1, 2), (1, 3), (1, 2), (1, 3)] ∧
    edgeKeys gDemoA = [(1, 2), (1, 3)] := by
  decide

/-- C7 (amended): for a duplicate-free key array whose keys are all present
nodes of a well-formed store, edges_by_nodes returns exactly those stored
edges (u, v) with u < v whose lower endpoint u occurs in the array — one
row per matched edge and no other rows; an edge whose only endpoint in the
array is the higher one is not returned.  Duplicate keys yield duplicate
rows, and an absent key makes the call fail. -/
theorem claim_C7_theorem {ND ED : Type} {g : Graph ND ED} {keys : List Key}
    (hwf : WF g) (hnd : keys.Nodup) (hall : ∀ k ∈ keys, hasNode g k = true) :
    ∃ rows, edges_by_nodes g keys = some rows ∧ rows.Nodup ∧
      (∀ p : Key × Key, p ∈ rows ↔ p ∈ edgeKeys g ∧ p.1 ∈ keys) ∧
      (∀ p ∈ rows, p.1 < p.2) := by
  obtain ⟨hn, hk, hc, hep⟩ := hwf
  have hguard : keys.all (fun k => hasNode g k) = true := by
    rw [List.all_eq_true]
    intro k hkk
    exact hall k hkk
  refine ⟨_, by rw [edges_by_nodes, if_pos hguard], flatpairs_nodup hk hc hnd,
    fun p => mem_flatpairs hc, ?_⟩
  intro p hp
  obtain ⟨hpe, _⟩ := (mem_flatpairs hc).1 hp
  obtain ⟨e, he, hkey⟩ := List.mem_map.1 hpe
  rw [← hkey]
  exact hc e he

/-- C7 witness: the amended statement evaluated on `gDemoA` with the key
array [1]. -/
theorem claim_C7_witness :
    WF gDemoA ∧
    (∃ rows, edges_by_nodes gDemoA [1] = some rows ∧ rows.Nodup ∧
      (∀ p : Key × Key, p ∈ rows ↔ p ∈ edgeKeys gDemoA ∧ p.1 ∈ [1]) ∧
      (∀ p ∈ rows, p.1 < p.2)) :=
  ⟨by decide, claim_C7_theorem (by decide) (by decide) (by decide)⟩

/-- C8 counterexample: the bulk edge setter only asserts that the two
endpoint arrays agree in length; a values array longer than the key count
is accepted — the call returns no error and the surplus value 40 is
silently ignored — instead of failing with a length mismatch. -/
theorem claim_C8_counterexample :
    (UndirectedGraph.set_edges_data (fun (v _ : Int) => v) gInt [1] [2]
      [30, 40]).2 = none ∧
    ([(1 : Key)].length ≠ [(30 : Int), 40].length) := by
  constructor
  · rfl
  · decide

/-- C8 (amended): the bulk node setter with explicit keys fails with the
length assertion when the values array length differs from the key count,
and otherwise writes values[i] into the record of the i-th key; the bulk
edge setter checks only that the two endpoint arrays agree — the values
array length is never compared against the key count, surplus values are
silently ignored — and writes values[i] into the record of the i-th edge. -/
theorem claim_C8_theorem {ND ED V : Type} {w1 : V → ND → ND} {w2 : V → ED → ED}
    {g : Graph ND ED} {keys us vs : List Key} {vals1 vals2 : List V} :
    (keys.length ≠ vals1.length →
      UndirectedGraph.set_nodes_data w1 g keys vals1
        = (g, some PyErr.assertionFailed)) ∧
    (keys.length = vals1.length → keys.Nodup →
      (∀ k ∈ keys, hasNode g k = true) →
      (UndirectedGraph.set_nodes_data w1 g keys vals1).2 = none ∧
      ∀ pr ∈ keys.zip vals1,
        node_prop (UndirectedGraph.set_nodes_data w1 g keys vals1).1 pr.1
          = (node_prop g pr.1).map (w1 pr.2)) ∧
    (us.length = vs.length → us.length ≤ vals2.length →
      ((us.zip vs).map (fun q => canon q.1 q.2)).Nodup →
      (∀ q ∈ us.zip vs, hasEdge g q.1 q.2 = true) →
      (UndirectedGraph.set_edges_data w2 g us vs vals2).2 = none ∧
      UndirectedGraph.set_edges_data w2 g us vs vals2
        = UndirectedGraph.set_edges_data w2 g us vs (vals2.take us.length) ∧
      ∀ tr ∈ (us.zip vs).zip vals2,
        edge_prop (UndirectedGraph.set_edges_data w2 g us vs vals2).1 tr.1.1 tr.1.2
          = (edge_prop g tr.1.1 tr.1.2).map (w2 tr.2)) := by
  refine ⟨?_, ?_, ?_⟩
  · intro hne
    rw [UndirectedGraph.set_nodes_data, if_neg hne]
  · intro hlen hnd hall
    rw [UndirectedGraph.set_nodes_data, if_pos hlen]
    have hndz : ((keys.zip vals1).map (fun pr => pr.1)).Nodup := by
      have h2 := List.map_fst_zip keys vals1 (le_of_eq hlen)
      exact h2.symm ▸ hnd
    have hallz : ∀ pr ∈ keys.zip vals1, hasNode g pr.1 = true := by
      intro pr hpr
      exact hall pr.1 (List.of_mem_zip hpr).1
    exact set_nodes_data_loop_writes (keys.zip vals1) g hndz hallz
  · intro hlv hlen hnd hall
    have hzl : (us.zip vs).length = us.length := by
      rw [List.length_zip, ← hlv, Nat.min_self]
    obtain ⟨herr, hwr⟩ := set_edges_data_loop_writes (us.zip vs) vals2 g
      (by rw [hzl]; exact hlen) hnd hall
    rw [UndirectedGraph.set_edges_data, if_pos hlv]
    refine ⟨herr, ?_, hwr⟩
    rw [← hzl, UndirectedGraph.set_edges_data, if_pos hlv]
    exact set_edges_data_loop_take (us.zip vs) vals2 g

/-- C8 witness: the three behaviors evaluated on the concrete store `gInt`
(nodes 1, 2 with an edge between them). -/
theorem claim_C8_witness :
    UndirectedGraph.set_nodes_data (fun (v _ : Int) => v) gInt [1] [5, 6]
      = (gInt, some PyErr.assertionFailed) ∧
    ((UndirectedGraph.set_nodes_data (fun (v _ : Int) => v) gInt [1, 2] [5, 6]).2
      = none ∧
     node_prop (UndirectedGraph.set_nodes_data (fun (v _ : Int) => v) gInt
       [1, 2] [5, 6]).1 1 = (node_prop gInt 1).map ((fun (v _ : Int) => v) 5)) ∧
    ((UndirectedGraph.set_edges_data (fun (v _ : Int) => v) gInt [1] [2]
       [30, 40]).2 = none ∧
     edge_prop (UndirectedGraph.set_edges_data (fun (v _ : Int) => v) gInt
       [1] [2] [30, 40]).1 1 2 = (edge_prop gInt 1 2).map ((fun (v _ : Int) => v) 30)) :=
  ⟨(@claim_C8_theorem Int Int Int (fun v _ => v) (fun v _ => v) gInt
      [1] [] [] [5, 6] []).1 (by decide),
   ⟨((@claim_C8_theorem Int Int Int (fun v _ => v) (fun v _ => v) gInt
      [1, 2] [] [] [5, 6] []).2.1 (by decide) (by decide) (by decide)).1,
    ((@claim_C8_theorem Int Int Int (fun v _ => v) (fun v _ => v) gInt
      [1, 2] [] [] [5, 6] []).2.1 (by decide) (by decide) (by decide)).2
      (1, 5) (by decide)⟩,
   ⟨((@claim_C8_theorem Int Int Int (fun v _ => v) (fun v _ => v) gInt
      [] [1] [2] [] [30, 40]).2.2 (by decide) (by decide) (by decide)
      (by decide)).1,
    ((@claim_C8_theorem Int Int Int (fun v _ => v) (fun v _ => v) gInt
      [] [1] [2] [] [30, 40]).2.2 (by decide) (by decide) (by decide)
      (by decide)).2.2 ((1, 2), 30) (by decide)⟩⟩

/-- C9: the bulk insertion methods are observationally equal to folding the
scalar insertions over the rows in index order (and, like the scalar forms,
report no error). -/
theorem claim_C9_theorem {ND ED : Type} (g : Graph ND ED)
    (rows : List (Key × ND)) (erows : List ((Key × Key) × ED)) :
    UndirectedGraph.add_nodes g rows
      = (rows.foldl (fun h r => (UndirectedGraph.add_node h r.1 r.2).1) g, none) ∧
    UndirectedGraph.add_edges g erows
      = (erows.foldl (fun h r => (UndirectedGraph.add_edge h r.1.1 r.1.2 r.2).1) g,
        none) := by
  constructor
  · rw [UndirectedGraph.add_nodes, add_nodes_loop_eq_foldl]
  · rw [UndirectedGraph.add_edges, add_edges_loop_eq_foldl]

/-- C10: the all-nodes bulk setter walks the node store in iteration order
assigning values[i] to the i-th node; the values length is never compared
with the node count — with at least size() values it succeeds and entries
beyond the node count are silently ignored (the result only depends on the
first size() values), while with fewer values it fails with an index error
partway through. -/
theorem claim_C10_theorem {ND ED V : Type} {w : V → ND → ND} {g : Graph ND ED}
    {vals : List V} :
    (graph_lite.size g ≤ vals.length →
      (UndirectedGraph.set_nodes_data_all w g vals).2 = none ∧
      (UndirectedGraph.set_nodes_data_all w g vals).1.nodes
        = (g.nodes.zip vals).map (fun pr => (pr.1.1, w pr.2 pr.1.2)) ∧
      (UndirectedGraph.set_nodes_data_all w g vals).1.edges = g.edges) ∧
    (UndirectedGraph.set_nodes_data_all w g vals
      = UndirectedGraph.set_nodes_data_all w g (vals.take (graph_lite.size g))) ∧
    (vals.length < graph_lite.size g →
      (UndirectedGraph.set_nodes_data_all w g vals).2
        = some PyErr.indexOutOfRange) := by
  refine ⟨?_, ?_, ?_⟩
  · intro h
    obtain ⟨he, hl⟩ := set_nodes_data_all_loop_ge g.nodes vals h
    exact ⟨he, hl, rfl⟩
  · rw [UndirectedGraph.set_nodes_data_all, UndirectedGraph.set_nodes_data_all,
      graph_lite.size, ← set_nodes_data_all_loop_take]
  · intro h
    exact set_nodes_data_all_loop_lt g.nodes vals h

/-- C10 witness: the three behaviors evaluated on the concrete two-node
store `gInt` with a longer and a shorter values array. -/
theorem claim_C10_witness :
    ((UndirectedGraph.set_nodes_data_all (fun (v _ : Int) => v) gInt
        [5, 6, 7]).2 = none ∧
     (UndirectedGraph.set_nodes_data_all (fun (v _ : Int) => v) gInt
        [5, 6, 7]).1.nodes
        = ((gInt.nodes.zip [5, 6, 7]).map
            (fun pr => (pr.1.1, (fun (v _ : Int) => v) pr.2 pr.1.2))) ∧
     (UndirectedGraph.set_nodes_data_all (fun (v _ : Int) => v) gInt
        [5, 6, 7]).1.edges = gInt.edges) ∧
    (UndirectedGraph.set_nodes_data_all (fun (v _ : Int) => v) gInt [5]).2
      = some PyErr.indexOutOfRange :=
  ⟨(@claim_C10_theorem Int Int Int (fun v _ => v) gInt [5, 6, 7]).1 (by decide),
   (@claim_C10_theorem Int Int Int (fun v _ => v) gInt [5]).2.2 (by decide)⟩

end SpatialGraph
